import Mathlib

/-!
Verification of the Tic Tac Toe persistence backend
(`src/backend/src/api/main.py`).

Shallow embedding: Python strings are Lean `String`s, a board cell
(`Optional[Literal["X","O"]]`, or an arbitrary dynamic value for the raw
codec input) is `Option String`, `None` is `none`.  Fallible Python code
(raising `ValueError` / `HTTPException`) is embedded as `Except`.
The SQLite table `ttt_games` is embedded as a list of rows together with
the auto-increment id assignment (`max id so far + 1`, strictly larger
than every existing id, mirroring `INTEGER PRIMARY KEY AUTOINCREMENT`).
-/

namespace TTT

/-- The expression `v if v in ("X", "O") else "."` from `_encode_board`:
the string a single cell contributes to the encoded board. -/
def cellToStr (v : Option String) : String :=
  if v = some "X" then "X" else if v = some "O" then "O" else "."

/-- Embedding of `_encode_board`: encode the board as a compact string of
9 chars, using `.` for null; raises `ValueError` when the length is not 9. -/
def _encode_board (board : List (Option String)) : Except String String :=
  if board.length ≠ 9 then .error "board must have length 9"
  else .ok (String.join (board.map cellToStr))

/-- One iteration of the decoding loop in `_decode_board`: what gets
appended to `out` for the character `ch`, or the raised error. -/
def decodeChar (ch : Char) : Except String (Option String) :=
  if ch = '.' then .ok none
  else if ch = 'X' then .ok (some "X")
  else if ch = 'O' then .ok (some "O")
  else .error "invalid board encoding"

/-- Embedding of `_decode_board`: decode the compact string representation
back into a board array; raises `ValueError` on a bad length or a bad
character. -/
def _decode_board (s : String) : Except String (List (Option String)) :=
  if s.length ≠ 9 then .error "board string must have length 9"
  else s.data.mapM decodeChar

/-- A cell value admitted by the pydantic field type
`Optional[Literal["X", "O"]]`. -/
def cellLiteralOk (v : Option String) : Bool :=
  v = none ∨ v = some "X" ∨ v = some "O"

/-- A character of a stored board string that `_decode_board` accepts. -/
def boardCharOk (c : Char) : Bool :=
  c = '.' ∨ c = 'X' ∨ c = 'O'

/-- The single character `cellToStr` always produces. -/
def cellChar (v : Option String) : Char :=
  if v = some "X" then 'X' else if v = some "O" then 'O' else '.'

/-- The cell a good character decodes to. -/
def charCell (c : Char) : Option String :=
  if c = 'X' then some "X" else if c = 'O' then some "O" else none

/-- Embedding of pydantic model `GameStateIn`: incoming game state.  Field
types are the underlying dynamic values; the constraints pydantic enforces
are collected in `GameStateIn.pydanticValid`. -/
structure GameStateIn where
  board : List (Option String)
  next_player : String
  winner : Option String
  is_draw : Bool
  moves : Int
deriving Repr, DecidableEq

/-- The constraint of the field declaration
`moves: int = Field(0, ge=0, le=9)`. -/
def movesFieldOk (m : Int) : Bool :=
  0 ≤ m ∧ m ≤ 9

/-- The validation FastAPI/pydantic performs on a `GameStateIn` request
body before the handler body runs: every board cell and the player fields
must match their `Literal` types, and `moves` its `Field(ge=0, le=9)`
bounds.  (No length constraint is declared on `board`.) -/
def GameStateIn.pydanticValid (p : GameStateIn) : Bool :=
  p.board.all cellLiteralOk &&
  (p.next_player = "X" ∨ p.next_player = "O") &&
  (p.winner = none ∨ p.winner = some "X" ∨ p.winner = some "O") &&
  movesFieldOk p.moves

/-- Embedding of pydantic model `GameStateOut`: a persisted game state as
returned by the handlers. -/
structure GameStateOut where
  id : Nat
  board : List (Option String)
  next_player : String
  winner : Option String
  is_draw : Bool
  moves : Int
  created_at : String
  updated_at : String
deriving Repr, DecidableEq

/-- The validation pydantic performs when a `GameStateOut(...)` value is
constructed: board cells and the player fields must match their `Literal`
types and `moves` its `Field(ge=0, le=9)` bounds, exactly as for
`GameStateIn`. -/
def GameStateOut.pydanticValid (o : GameStateOut) : Bool :=
  o.board.all cellLiteralOk &&
  (o.next_player = "X" ∨ o.next_player = "O") &&
  (o.winner = none ∨ o.winner = some "X" ∨ o.winner = some "O") &&
  movesFieldOk o.moves

/-- Embedding of a `GameStateOut(...)` construction: pydantic validates
the field values and raises a `ValidationError` on an invalid
combination. -/
def mkGameStateOut (o : GameStateOut) : Except String GameStateOut :=
  if o.pydanticValid then .ok o else .error "GameStateOut validation error"

/-- One row of the SQLite table `ttt_games` (`is_draw` is stored as an
integer, 1/0 on this system's own writes). -/
structure Row where
  id : Nat
  board : String
  next_player : String
  winner : Option String
  is_draw : Int
  moves : Int
  created_at : String
  updated_at : String
deriving Repr, DecidableEq

/-- The `ttt_games` table: rows in insertion order. -/
structure Store where
  rows : List Row
deriving Repr, DecidableEq

/-- Largest id present in a list of rows (0 when there is none). -/
def maxIdList : List Row → Nat
  | [] => 0
  | r :: rs => max r.id (maxIdList rs)

/-- The id `INTEGER PRIMARY KEY AUTOINCREMENT` assigns to the next insert
(`cur.lastrowid`): strictly greater than every id already in the table. -/
def Store.nextId (s : Store) : Nat :=
  maxIdList s.rows + 1

/-- Semantics of `SELECT * FROM ttt_games ORDER BY id DESC LIMIT 1`: the
row with the maximum id, or none when the table is empty. -/
def latestRow : List Row → Option Row
  | [] => none
  | r :: rs =>
    match latestRow rs with
    | none => some r
    | some a => if r.id ≥ a.id then some r else some a

/-- Fetch the latest row of the store. -/
def Store.fetchLatest (s : Store) : Option Row :=
  latestRow s.rows

/-- Outcome of a handler: `http` is a raised `HTTPException` with status
code and detail, `internal` an uncaught exception (surfaced by the
framework as a generic server error). -/
inductive ApiError where
  | http (status : Nat) (detail : String)
  | internal (msg : String)
deriving Repr, DecidableEq

/-- Embedding of the handler `save_game_state` (`POST /api/games`): check
the board length (400 on mismatch), capture `now`, encode the board,
insert a row with a fresh id and `created_at = updated_at = now`, and
return the record built from decoding the just-encoded board string.  The
result pairs the handler outcome with the store after the call (error
paths raised before the insert leave the store unchanged). -/
def save_game_state (payload : GameStateIn) (now : String) (s : Store) :
    Except ApiError GameStateOut × Store :=
  if payload.board.length ≠ 9 then
    (.error (.http 400 "board must be a 9-element array"), s)
  else
    match _encode_board payload.board with
    | .error e => (.error (.internal e), s)
    | .ok board_encoded =>
      let game_id := s.nextId
      let row : Row :=
        { id := game_id, board := board_encoded,
          next_player := payload.next_player, winner := payload.winner,
          is_draw := if payload.is_draw then 1 else 0, moves := payload.moves,
          created_at := now, updated_at := now }
      let s' : Store := ⟨s.rows ++ [row]⟩
      match _decode_board board_encoded with
      | .error e => (.error (.internal e), s')
      | .ok b =>
        (.ok { id := game_id, board := b, next_player := payload.next_player,
               winner := payload.winner, is_draw := payload.is_draw,
               moves := payload.moves, created_at := now, updated_at := now },
         s')

/-- Embedding of the handler `get_latest_game_state`
(`GET /api/games/latest`): 404 on an empty table, 500 "Corrupt board
data" when the stored board string fails to decode, then the
`GameStateOut(...)` construction — whose pydantic validation lies
outside the decode try/except, so a `ValidationError` there escapes the
handler as an uncaught exception — and otherwise the decoded record. -/
def get_latest_game_state (s : Store) : Except ApiError GameStateOut :=
  match s.fetchLatest with
  | none => .error (.http 404 "No saved game state")
  | some row =>
    match _decode_board row.board with
    | .error e => .error (.http 500 ("Corrupt board data: " ++ e))
    | .ok board =>
      match mkGameStateOut
          { id := row.id, board := board, next_player := row.next_player,
            winner := row.winner, is_draw := row.is_draw != 0,
            moves := row.moves, created_at := row.created_at,
            updated_at := row.updated_at } with
      | .error e => .error (.internal e)
      | .ok o => .ok o

/-- The full `POST /api/games` endpoint: pydantic validation of the body
(rejecting with a 422 validation error before the handler body runs),
then the handler. -/
def post_api_games (payload : GameStateIn) (now : String) (s : Store) :
    Except ApiError GameStateOut × Store :=
  if payload.pydanticValid then save_game_state payload now s
  else (.error (.http 422 "request validation error"), s)

/-- Whether a stored row's board string decodes. -/
def rowDecodes (r : Row) : Bool :=
  match _decode_board r.board with
  | .ok _ => true
  | .error _ => false

/-- A store every row of which has a decodable board string. -/
def Store.wellFormed (s : Store) : Bool :=
  s.rows.all rowDecodes

/-- Saving a list of payloads in sequence with the same timestamp;
returns, per successful insert, the assigned id and the store after it. -/
def saveChain (now : String) : Store → List GameStateIn → List (Nat × Store)
  | _, [] => []
  | s, p :: ps =>
    match save_game_state p now s with
    | (.ok out, s') => (out.id, s') :: saveChain now s' ps
    | (.error _, s') => saveChain now s' ps

theorem cellToStr_data (v : Option String) :
    (cellToStr v).data = [cellChar v] := by
  unfold cellToStr cellChar
  by_cases hX : v = some "X"
  · simp [hX]
  · by_cases hO : v = some "O"
    · simp [hX, hO]
    · simp [hX, hO]

theorem string_ext {s t : String} (h : s.data = t.data) : s = t := by
  cases s; cases t; exact congrArg String.mk h

theorem foldl_append_data (l : List String) (a : String) :
    (l.foldl (fun r s => r ++ s) a).data = a.data ++ (l.map String.data).flatten := by
  induction l generalizing a with
  | nil => simp
  | cons x xs ih =>
      simp only [List.foldl_cons, List.map_cons, List.flatten_cons]
      rw [ih, String.data_append, List.append_assoc]

theorem join_data (l : List String) :
    (String.join l).data = (l.map String.data).flatten := by
  simp [String.join, foldl_append_data]

theorem encoded_data (board : List (Option String)) :
    (String.join (board.map cellToStr)).data = board.map cellChar := by
  rw [join_data]
  induction board with
  | nil => rfl
  | cons v vs ih =>
      simp only [List.map_cons, List.flatten_cons, cellToStr_data, ih]
      rfl

theorem decodeChar_cellChar (v : Option String) (hv : cellLiteralOk v = true) :
    decodeChar (cellChar v) = .ok v := by
  simp only [cellLiteralOk, decide_eq_true_eq] at hv
  rcases hv with h | h | h <;> subst h <;> rfl

theorem mapM_decode_map_cellChar (board : List (Option String))
    (hv : board.all cellLiteralOk = true) :
    (board.map cellChar).mapM decodeChar = .ok board := by
  induction board with
  | nil => rfl
  | cons v vs ih =>
      simp only [List.all_cons, Bool.and_eq_true] at hv
      simp only [List.map_cons, List.mapM_cons, decodeChar_cellChar v hv.1,
        ih hv.2]
      rfl

theorem decodeChar_ok (c : Char) (hc : boardCharOk c = true) :
    decodeChar c = .ok (charCell c) := by
  simp only [boardCharOk, decide_eq_true_eq] at hc
  rcases hc with h | h | h <;> subst h <;> rfl

theorem cellChar_charCell (c : Char) (hc : boardCharOk c = true) :
    cellChar (charCell c) = c := by
  simp only [boardCharOk, decide_eq_true_eq] at hc
  rcases hc with h | h | h <;> subst h <;> rfl

theorem charCell_literalOk (c : Char) : cellLiteralOk (charCell c) = true := by
  unfold charCell
  split <;> simp [cellLiteralOk]

theorem mapM_decode_good (cs : List Char) (hc : cs.all boardCharOk = true) :
    cs.mapM decodeChar = .ok (cs.map charCell) := by
  induction cs with
  | nil => rfl
  | cons c cs ih =>
      simp only [List.all_cons, Bool.and_eq_true] at hc
      simp only [List.mapM_cons, decodeChar_ok c hc.1, ih hc.2, List.map_cons]
      rfl

theorem roundtrip_encode_decode (board : List (Option String))
    (hlen : board.length = 9) (hv : board.all cellLiteralOk = true) :
    ∃ s : String, _encode_board board = .ok s ∧ _decode_board s = .ok board := by
  refine ⟨String.join (board.map cellToStr), ?_, ?_⟩
  · simp [_encode_board, hlen]
  · have hd := encoded_data board
    have hslen : (String.join (board.map cellToStr)).length = 9 := by
      simp only [String.length, hd, List.length_map, hlen]
    simp only [_decode_board, hslen]
    simp only [hd, if_neg (by decide : ¬ (9 : Nat) ≠ 9)]
    exact mapM_decode_map_cellChar board hv

theorem roundtrip_decode_encode (s : String)
    (hlen : s.length = 9) (hc : s.data.all boardCharOk = true) :
    ∃ b : List (Option String), _decode_board s = .ok b ∧ _encode_board b = .ok s := by
  refine ⟨s.data.map charCell, ?_, ?_⟩
  · simp only [_decode_board, hlen, if_neg (by decide : ¬ (9 : Nat) ≠ 9)]
    exact mapM_decode_good s.data hc
  · have hblen : (s.data.map charCell).length = 9 := by
      simpa [List.length_map] using hlen
    simp only [_encode_board, hblen, if_neg (by decide : ¬ (9 : Nat) ≠ 9)]
    refine congrArg Except.ok (string_ext ?_)
    rw [encoded_data]
    rw [List.map_map]
    have : ∀ c ∈ s.data, (cellChar ∘ charCell) c = id c := by
      intro c hcmem
      have := List.all_eq_true.mp hc c hcmem
      simpa using cellChar_charCell c this
    rw [List.map_congr_left this, List.map_id]

theorem decodeChar_bad (c : Char) (hc : boardCharOk c = false) :
    decodeChar c = .error "invalid board encoding" := by
  simp only [boardCharOk, decide_eq_false_iff_not, not_or] at hc
  simp [decodeChar, hc.1, hc.2.1, hc.2.2]

theorem mapM_decode_bad (cs : List Char)
    (h : ∃ c ∈ cs, boardCharOk c = false) :
    cs.mapM decodeChar = .error "invalid board encoding" := by
  induction cs with
  | nil => simp at h
  | cons c cs ih =>
      by_cases hc : boardCharOk c = true
      · have hd : ∃ d ∈ cs, boardCharOk d = false := by
          rcases h with ⟨d, hd, hbad⟩
          rcases List.mem_cons.mp hd with h1 | h1
          · rw [h1] at hbad; rw [hbad] at hc; exact absurd hc (by simp)
          · exact ⟨d, h1, hbad⟩
        simp only [List.mapM_cons, decodeChar_ok c hc, ih hd]
        rfl
      · simp only [List.mapM_cons,
          decodeChar_bad c (Bool.eq_false_iff.mpr fun hh => hc hh)]
        rfl

theorem decode_fails (s : String)
    (h : s.length ≠ 9 ∨ ∃ c ∈ s.data, boardCharOk c = false) :
    ∃ e, _decode_board s = .error e := by
  by_cases hlen : s.length = 9
  · rcases h with h | h
    · exact absurd hlen h
    · refine ⟨"invalid board encoding", ?_⟩
      simp only [_decode_board, hlen, if_neg (by decide : ¬ (9 : Nat) ≠ 9)]
      exact mapM_decode_bad s.data h
  · exact ⟨"board string must have length 9", by simp [_decode_board, hlen]⟩

theorem cellChar_ok (v : Option String) : boardCharOk (cellChar v) = true := by
  unfold cellChar
  by_cases h1 : v = some "X"
  · rw [if_pos h1]; decide
  · rw [if_neg h1]
    by_cases h2 : v = some "O"
    · rw [if_pos h2]; decide
    · rw [if_neg h2]; decide

theorem encode_decodes (b : List (Option String)) (hlen : b.length = 9) :
    ∃ enc nb, _encode_board b = .ok enc ∧ _decode_board enc = .ok nb := by
  refine ⟨String.join (b.map cellToStr), (b.map cellChar).map charCell,
    by simp [_encode_board, hlen], ?_⟩
  have hd := encoded_data b
  have hslen : (String.join (b.map cellToStr)).length = 9 := by
    simp only [String.length, hd, List.length_map, hlen]
  simp only [_decode_board, hslen, if_neg (by decide : ¬ (9 : Nat) ≠ 9), hd]
  exact mapM_decode_good (b.map cellChar)
    (List.all_eq_true.mpr fun c hc => by
      rcases List.mem_map.mp hc with ⟨v, _, hv⟩
      exact hv ▸ cellChar_ok v)

theorem mem_le_maxIdList (l : List Row) (r : Row) (h : r ∈ l) :
    r.id ≤ maxIdList l := by
  induction l with
  | nil => simp at h
  | cons x xs ih =>
      rcases List.mem_cons.mp h with h1 | h1
      · subst h1; exact Nat.le_max_left _ _
      · exact Nat.le_trans (ih h1) (Nat.le_max_right _ _)

theorem maxIdList_append_single (l : List Row) (r : Row) :
    maxIdList (l ++ [r]) = max (maxIdList l) r.id := by
  induction l with
  | nil => exact Nat.max_comm r.id 0
  | cons x xs ih =>
      show max x.id (maxIdList (xs ++ [r])) = max (max x.id (maxIdList xs)) r.id
      rw [ih]
      exact (Nat.max_assoc _ _ _).symm

theorem latestRow_cons (x : Row) (xs : List Row) :
    latestRow (x :: xs) =
      match latestRow xs with
      | none => some x
      | some a => if x.id ≥ a.id then some x else some a := rfl

theorem latestRow_mem (l : List Row) (a : Row) (h : latestRow l = some a) :
    a ∈ l := by
  induction l with
  | nil => simp [latestRow] at h
  | cons x xs ih =>
      rcases hx : latestRow xs with _ | b
      · rw [latestRow_cons, hx] at h
        injection h with h
        exact h ▸ List.mem_cons_self x xs
      · rw [latestRow_cons, hx] at h
        by_cases hle : x.id ≥ b.id
        · rw [show (match some b with
              | none => some x
              | some a => if x.id ≥ a.id then some x else some a) =
              if x.id ≥ b.id then some x else some b from rfl,
            if_pos hle] at h
          injection h with h
          exact h ▸ List.mem_cons_self x xs
        · rw [show (match some b with
              | none => some x
              | some a => if x.id ≥ a.id then some x else some a) =
              if x.id ≥ b.id then some x else some b from rfl,
            if_neg hle] at h
          injection h with h
          exact List.mem_cons_of_mem x (ih (h ▸ hx))

theorem latestRow_eq_none (l : List Row) : latestRow l = none ↔ l = [] := by
  cases l with
  | nil => simp [latestRow]
  | cons x xs =>
      constructor
      · intro h
        rcases hx : latestRow xs with _ | b
        · rw [latestRow_cons, hx] at h
          exact absurd h (by simp)
        · rw [latestRow_cons, hx,
            show (match some b with
              | none => some x
              | some a => if x.id ≥ a.id then some x else some a) =
              if x.id ≥ b.id then some x else some b from rfl] at h
          by_cases hle : x.id ≥ b.id
          · rw [if_pos hle] at h; exact absurd h (by simp)
          · rw [if_neg hle] at h; exact absurd h (by simp)
      · intro h; exact absurd h (by simp)

theorem latestRow_append_gt (l : List Row) (r : Row)
    (h : ∀ a ∈ l, a.id < r.id) :
    latestRow (l ++ [r]) = some r := by
  induction l with
  | nil => simp [latestRow]
  | cons x xs ih =>
      have hx : x.id < r.id := h x (List.mem_cons_self x xs)
      have htail := ih fun a ha => h a (List.mem_cons_of_mem x ha)
      show (match latestRow (xs ++ [r]) with
        | none => some x
        | some a => if x.id ≥ a.id then some x else some a) = some r
      rw [htail]
      show (if x.id ≥ r.id then some x else some r) = some r
      rw [if_neg (by omega : ¬ x.id ≥ r.id)]

theorem save_ok_spec (p : GameStateIn) (now : String) (s : Store)
    (hlen : p.board.length = 9) (hcells : p.board.all cellLiteralOk = true) :
    ∃ enc,
      _encode_board p.board = .ok enc ∧
      _decode_board enc = .ok p.board ∧
      save_game_state p now s =
        (.ok { id := s.nextId, board := p.board,
               next_player := p.next_player, winner := p.winner,
               is_draw := p.is_draw, moves := p.moves,
               created_at := now, updated_at := now },
         ⟨s.rows ++ [{ id := s.nextId, board := enc,
                       next_player := p.next_player, winner := p.winner,
                       is_draw := if p.is_draw then 1 else 0,
                       moves := p.moves,
                       created_at := now, updated_at := now }]⟩) := by
  obtain ⟨enc, henc, hdec⟩ := roundtrip_encode_decode p.board hlen hcells
  exact ⟨enc, henc, hdec, by simp [save_game_state, hlen, henc, hdec]⟩

theorem out_valid_of_in_valid (p : GameStateIn) (hp : p.pydanticValid = true)
    (i : Nat) (isd : Bool) (ca ua : String) :
    GameStateOut.pydanticValid
      { id := i, board := p.board, next_player := p.next_player,
        winner := p.winner, is_draw := isd, moves := p.moves,
        created_at := ca, updated_at := ua } = true := by
  simp only [GameStateIn.pydanticValid, Bool.and_eq_true] at hp
  simp only [GameStateOut.pydanticValid, Bool.and_eq_true]
  exact hp

theorem latest_after_insert (s : Store) (r : Row)
    (hid : ∀ a ∈ s.rows, a.id < r.id)
    (b : List (Option String)) (hdec : _decode_board r.board = .ok b)
    (hval : GameStateOut.pydanticValid
      { id := r.id, board := b, next_player := r.next_player,
        winner := r.winner, is_draw := r.is_draw != 0, moves := r.moves,
        created_at := r.created_at, updated_at := r.updated_at } = true) :
    get_latest_game_state ⟨s.rows ++ [r]⟩ =
      .ok { id := r.id, board := b, next_player := r.next_player,
            winner := r.winner, is_draw := r.is_draw != 0, moves := r.moves,
            created_at := r.created_at, updated_at := r.updated_at } := by
  simp [get_latest_game_state, Store.fetchLatest,
    latestRow_append_gt s.rows r hid, hdec, mkGameStateOut, hval]

theorem save_inserts_only_encoded (p : GameStateIn) (now : String) (s : Store) :
    ∀ r ∈ (save_game_state p now s).2.rows, r ∈ s.rows ∨
      (r.board.length = 9 ∧ r.board.data.all boardCharOk = true) := by
  intro r hr
  by_cases hlen : p.board.length = 9
  · have henc : _encode_board p.board =
        .ok (String.join (p.board.map cellToStr)) := by
      simp [_encode_board, hlen]
    rcases hd : _decode_board (String.join (p.board.map cellToStr)) with e | b <;>
      simp only [save_game_state, hlen, henc, hd,
        if_neg (by decide : ¬ (9 : Nat) ≠ 9), List.mem_append,
        List.mem_singleton] at hr <;>
      rcases hr with hr | hr
    · exact Or.inl hr
    · refine Or.inr ?_
      rw [hr]
      constructor
      · show (String.join (p.board.map cellToStr)).data.length = 9
        rw [encoded_data, List.length_map, hlen]
      · show (String.join (p.board.map cellToStr)).data.all boardCharOk = true
        rw [encoded_data]
        exact List.all_eq_true.mpr fun c hc => by
          rcases List.mem_map.mp hc with ⟨v, _, hv⟩
          exact hv ▸ cellChar_ok v
    · exact Or.inl hr
    · refine Or.inr ?_
      rw [hr]
      constructor
      · show (String.join (p.board.map cellToStr)).data.length = 9
        rw [encoded_data, List.length_map, hlen]
      · show (String.join (p.board.map cellToStr)).data.all boardCharOk = true
        rw [encoded_data]
        exact List.all_eq_true.mpr fun c hc => by
          rcases List.mem_map.mp hc with ⟨v, _, hv⟩
          exact hv ▸ cellChar_ok v
  · simp only [save_game_state, if_pos hlen] at hr
    exact Or.inl hr

theorem cells_ok_of_pydanticValid (p : GameStateIn)
    (hp : p.pydanticValid = true) : p.board.all cellLiteralOk = true := by
  simp only [GameStateIn.pydanticValid, Bool.and_eq_true] at hp
  exact hp.1.1.1

theorem save_ok_latest (p : GameStateIn) (now : String) (s : Store)
    (hlen : p.board.length = 9) (hpv : p.pydanticValid = true) :
    ∃ out r,
      save_game_state p now s = (.ok out, ⟨s.rows ++ [r]⟩) ∧
      out.id = s.nextId ∧ r.id = s.nextId ∧
      ∃ fetched, get_latest_game_state ⟨s.rows ++ [r]⟩ = .ok fetched ∧
        fetched.id = s.nextId := by
  obtain ⟨enc, henc, hdec, hsave⟩ :=
    save_ok_spec p now s hlen (cells_ok_of_pydanticValid p hpv)
  refine ⟨_, _, hsave, rfl, rfl, ?_⟩
  have hlt : ∀ a ∈ s.rows,
      a.id < ({ id := s.nextId, board := enc,
                next_player := p.next_player, winner := p.winner,
                is_draw := if p.is_draw then 1 else 0, moves := p.moves,
                created_at := now, updated_at := now } : Row).id :=
    fun a ha =>
      Nat.lt_of_le_of_lt (mem_le_maxIdList s.rows a ha) (Nat.lt_succ_self _)
  have hval := out_valid_of_in_valid p hpv s.nextId
    (((if p.is_draw then (1 : Int) else 0)) != 0) now now
  exact ⟨_, latest_after_insert s _ hlt p.board hdec hval, rfl⟩

theorem saveChain_spec (now : String) (ps : List GameStateIn) :
    ∀ s : Store,
    (∀ p ∈ ps, p.board.length = 9 ∧ p.pydanticValid = true) →
    (saveChain now s ps).length = ps.length ∧
    (∀ st ∈ saveChain now s ps, maxIdList s.rows < st.1 ∧
      ∃ out, get_latest_game_state st.2 = .ok out ∧ out.id = st.1) ∧
    ((saveChain now s ps).map Prod.fst).Pairwise (· < ·) := by
  induction ps with
  | nil => intro s _; simp [saveChain]
  | cons p ps ih =>
      intro s h
      obtain ⟨hlen, hpv⟩ := h p (List.mem_cons_self p ps)
      obtain ⟨out, r, hsave, hoid, hrid, fetched, hlatest, hfid⟩ :=
        save_ok_latest p now s hlen hpv
      have hchain : saveChain now s (p :: ps) =
          (out.id, ⟨s.rows ++ [r]⟩) :: saveChain now ⟨s.rows ++ [r]⟩ ps := by
        show (match save_game_state p now s with
          | (.ok o, s') => (o.id, s') :: saveChain now s' ps
          | (.error _, s') => saveChain now s' ps) = _
        rw [hsave]
      have hnext : maxIdList s.rows < s.nextId := Nat.lt_succ_self _
      have hmax : maxIdList (s.rows ++ [r]) = out.id := by
        rw [maxIdList_append_single, hrid, hoid]
        exact Nat.max_eq_right (Nat.le_succ _)
      obtain ⟨ihlen, ihmem, ihpair⟩ :=
        ih ⟨s.rows ++ [r]⟩ fun q hq => h q (List.mem_cons_of_mem p hq)
      refine ⟨?_, ?_, ?_⟩
      · rw [hchain, List.length_cons, ihlen, List.length_cons]
      · intro st hst
        rw [hchain] at hst
        rcases List.mem_cons.mp hst with h1 | h1
        · rw [h1]
          refine ⟨hoid ▸ hnext, ⟨fetched, hlatest, hfid.trans hoid.symm⟩⟩
        · obtain ⟨hmem1, hmem2⟩ := ihmem st h1
          have h2 : out.id < st.1 := hmax ▸ hmem1
          exact ⟨Nat.lt_trans (hoid ▸ hnext) h2, hmem2⟩
      · rw [hchain, List.map_cons]
        refine List.Pairwise.cons ?_ ihpair
        intro b hb
        rcases List.mem_map.mp hb with ⟨st, hst, hfst⟩
        have h2 : out.id < st.1 := hmax ▸ (ihmem st hst).1
        exact hfst ▸ h2

end TTT

/-- C1: for every valid 9-cell board `b` (cells among null, "X", "O"),
`_decode_board (_encode_board b) = b`; and for every 9-character string
over the alphabet `{., X, O}`, `_encode_board (_decode_board s) = s`. -/
theorem C1_codec_roundtrip :
    (∀ b : List (Option String), b.length = 9 → b.all TTT.cellLiteralOk = true →
      ∃ s, TTT._encode_board b = .ok s ∧ TTT._decode_board s = .ok b) ∧
    (∀ s : String, s.length = 9 → s.data.all TTT.boardCharOk = true →
      ∃ b, TTT._decode_board s = .ok b ∧ TTT._encode_board b = .ok s) :=
  ⟨TTT.roundtrip_encode_decode, TTT.roundtrip_decode_encode⟩

/-- Witness for C1 at the concrete board `[X, ., ., ., O, ., ., ., .]`
and the concrete string `"XO.XO.XO."`. -/
theorem C1_codec_roundtrip_witness :
    (∃ s, TTT._encode_board
        [some "X", none, none, none, some "O", none, none, none, none] = .ok s ∧
      TTT._decode_board s =
        .ok [some "X", none, none, none, some "O", none, none, none, none]) ∧
    (∃ b, TTT._decode_board "XO.XO.XO." = .ok b ∧
      TTT._encode_board b = .ok "XO.XO.XO.") :=
  ⟨C1_codec_roundtrip.1 _ (by decide) (by decide),
   C1_codec_roundtrip.2 "XO.XO.XO." (by decide) (by decide)⟩

/-- C2: on a valid payload (9-cell board of X/O/null), `save_game_state`
succeeds and returns a record whose board, next_player, winner, is_draw
and moves equal the payload's fields, whose id is the id assigned by the
insert, and whose created_at and updated_at both equal the single
timestamp captured before the insert; the returned board is the decoding
of the just-encoded board string, not a re-read of the store. -/
theorem C2_save_persists_written_record (p : TTT.GameStateIn) (now : String)
    (s : TTT.Store)
    (hlen : p.board.length = 9)
    (hcells : p.board.all TTT.cellLiteralOk = true) :
    ∃ enc,
      TTT._encode_board p.board = .ok enc ∧
      TTT._decode_board enc = .ok p.board ∧
      TTT.save_game_state p now s =
        (.ok { id := s.nextId, board := p.board,
               next_player := p.next_player, winner := p.winner,
               is_draw := p.is_draw, moves := p.moves,
               created_at := now, updated_at := now },
         ⟨s.rows ++ [{ id := s.nextId, board := enc,
                       next_player := p.next_player, winner := p.winner,
                       is_draw := if p.is_draw then 1 else 0,
                       moves := p.moves,
                       created_at := now, updated_at := now }]⟩) :=
  TTT.save_ok_spec p now s hlen hcells

/-- Witness for C2 at the payload of the spec's save-then-fetch example
(board `X...O....`, next player `O`, 2 moves) on the empty store. -/
theorem C2_save_persists_written_record_witness :
    ∃ enc,
      TTT._encode_board
          [some "X", none, none, none, some "O", none, none, none, none] = .ok enc ∧
      TTT._decode_board enc =
        .ok [some "X", none, none, none, some "O", none, none, none, none] ∧
      TTT.save_game_state
          ⟨[some "X", none, none, none, some "O", none, none, none, none],
            "O", none, false, 2⟩
          "2025-06-01T12:00:00+00:00" ⟨[]⟩ =
        (.ok { id := 1,
               board := [some "X", none, none, none, some "O", none, none, none, none],
               next_player := "O", winner := none, is_draw := false, moves := 2,
               created_at := "2025-06-01T12:00:00+00:00",
               updated_at := "2025-06-01T12:00:00+00:00" },
         ⟨[{ id := 1, board := enc, next_player := "O", winner := none,
             is_draw := 0, moves := 2,
             created_at := "2025-06-01T12:00:00+00:00",
             updated_at := "2025-06-01T12:00:00+00:00" }]⟩) := by
  have h := C2_save_persists_written_record
    ⟨[some "X", none, none, none, some "O", none, none, none, none],
      "O", none, false, 2⟩
    "2025-06-01T12:00:00+00:00" ⟨[]⟩ (by decide) (by decide)
  exact h

/-- C3: saving a sequence of valid snapshots (9-cell boards, payloads
passing the pydantic validation every Python `GameStateIn` satisfies)
yields one id per snapshot, the ids are pairwise strictly increasing in
insertion order, and after each insert `get_latest_game_state` returns a
record carrying the just-inserted id. -/
theorem C3_monotonic_ids_latest (now : String) (s : TTT.Store)
    (ps : List TTT.GameStateIn)
    (h : ∀ p ∈ ps, p.board.length = 9 ∧ p.pydanticValid = true) :
    (TTT.saveChain now s ps).length = ps.length ∧
    ((TTT.saveChain now s ps).map Prod.fst).Pairwise (· < ·) ∧
    ∀ st ∈ TTT.saveChain now s ps,
      ∃ out, TTT.get_latest_game_state st.2 = .ok out ∧ out.id = st.1 := by
  obtain ⟨h1, h2, h3⟩ := TTT.saveChain_spec now ps s h
  exact ⟨h1, h3, fun st hst => (h2 st hst).2⟩

/-- Witness for C3: two concrete snapshots saved on the empty store. -/
theorem C3_monotonic_ids_latest_witness :
    (TTT.saveChain "t0" ⟨[]⟩
        [⟨List.replicate 9 none, "X", none, false, 0⟩,
         ⟨[some "X", none, none, none, none, none, none, none, none],
           "O", none, false, 1⟩]).length = 2 ∧
    ((TTT.saveChain "t0" ⟨[]⟩
        [⟨List.replicate 9 none, "X", none, false, 0⟩,
         ⟨[some "X", none, none, none, none, none, none, none, none],
           "O", none, false, 1⟩]).map Prod.fst).Pairwise (· < ·) ∧
    ∀ st ∈ TTT.saveChain "t0" ⟨[]⟩
        [⟨List.replicate 9 none, "X", none, false, 0⟩,
         ⟨[some "X", none, none, none, none, none, none, none, none],
           "O", none, false, 1⟩],
      ∃ out, TTT.get_latest_game_state st.2 = .ok out ∧ out.id = st.1 :=
  C3_monotonic_ids_latest "t0" ⟨[]⟩ _ (by decide)

/-- C4: when the maximum-id row of the store has a board column that is
not a 9-character string over `{., X, O}`, `get_latest_game_state`
fails with the 500 "Corrupt board data" error, and in particular not
with the 404 "No saved game state" error. -/
theorem C4_corrupt_board_is_500 (s : TTT.Store) (r : TTT.Row)
    (hlat : s.fetchLatest = some r)
    (hbad : r.board.length ≠ 9 ∨ ∃ c ∈ r.board.data, TTT.boardCharOk c = false) :
    ∃ e, TTT.get_latest_game_state s =
        .error (.http 500 ("Corrupt board data: " ++ e)) ∧
      TTT.get_latest_game_state s ≠
        .error (.http 404 "No saved game state") := by
  obtain ⟨e, he⟩ := TTT.decode_fails r.board hbad
  have hres : TTT.get_latest_game_state s =
      .error (.http 500 ("Corrupt board data: " ++ e)) := by
    simp [TTT.get_latest_game_state, hlat, he]
  exact ⟨e, hres, by simp [hres]⟩

/-- Witness for C4: a single-row store whose board column is
`"XXZ.O.XO."` (contains the bad character `Z`). -/
theorem C4_corrupt_board_is_500_witness :
    ∃ e, TTT.get_latest_game_state
        ⟨[⟨1, "XXZ.O.XO.", "O", none, 0, 3, "t", "t"⟩]⟩ =
        .error (.http 500 ("Corrupt board data: " ++ e)) ∧
      TTT.get_latest_game_state
        ⟨[⟨1, "XXZ.O.XO.", "O", none, 0, 3, "t", "t"⟩]⟩ ≠
        .error (.http 404 "No saved game state") :=
  C4_corrupt_board_is_500 _ ⟨1, "XXZ.O.XO.", "O", none, 0, 3, "t", "t"⟩
    (by decide) (by decide)

/-- C5: fetching the latest game state from the empty store fails with
the 404 "No saved game state" error. -/
theorem C5_empty_store_not_found :
    TTT.get_latest_game_state ⟨[]⟩ =
      .error (.http 404 "No saved game state") := rfl

/-- C6: a payload whose board length is not 9 makes `save_game_state`
fail with the 400 error, and the store is returned unchanged: the failed
call persists no row. -/
theorem C6_bad_board_length_400 (p : TTT.GameStateIn) (now : String)
    (s : TTT.Store) (h : p.board.length ≠ 9) :
    TTT.save_game_state p now s =
      (.error (.http 400 "board must be a 9-element array"), s) := by
  unfold TTT.save_game_state
  rw [if_pos h]

/-- Witness for C6: an 8-element board on a nonempty store. -/
theorem C6_bad_board_length_400_witness :
    TTT.save_game_state ⟨List.replicate 8 none, "X", none, false, 0⟩ "t"
        ⟨[⟨1, ".........", "X", none, 0, 0, "t0", "t0"⟩]⟩ =
      (.error (.http 400 "board must be a 9-element array"),
       ⟨[⟨1, ".........", "X", none, 0, 0, "t0", "t0"⟩]⟩) :=
  C6_bad_board_length_400 ⟨List.replicate 8 none, "X", none, false, 0⟩ "t"
    ⟨[⟨1, ".........", "X", none, 0, 0, "t0", "t0"⟩]⟩ (by decide)

/-- C7: `_encode_board` raises on every list whose length is not 9;
`_decode_board` raises on every string whose length is not 9 and on
every 9-character string containing a character outside `{., X, O}`. -/
theorem C7_codec_rejections :
    (∀ b : List (Option String), b.length ≠ 9 →
      TTT._encode_board b = .error "board must have length 9") ∧
    (∀ s : String, s.length ≠ 9 →
      TTT._decode_board s = .error "board string must have length 9") ∧
    (∀ s : String, s.length = 9 →
      (∃ c ∈ s.data, TTT.boardCharOk c = false) →
      TTT._decode_board s = .error "invalid board encoding") := by
  refine ⟨fun b h => by simp [TTT._encode_board, h],
    fun s h => by simp [TTT._decode_board, h],
    fun s h9 hbad => ?_⟩
  simp only [TTT._decode_board, h9, if_neg (by decide : ¬ (9 : Nat) ≠ 9)]
  exact TTT.mapM_decode_bad s.data hbad

/-- Witness for C7 at an 8-cell list, a 3-character string, and a
9-character string containing `Z`. -/
theorem C7_codec_rejections_witness :
    TTT._encode_board (List.replicate 8 none) =
      .error "board must have length 9" ∧
    TTT._decode_board "XO." = .error "board string must have length 9" ∧
    TTT._decode_board "XOZXO.XO." = .error "invalid board encoding" :=
  ⟨C7_codec_rejections.1 (List.replicate 8 none) (by decide),
   C7_codec_rejections.2.1 "XO." (by decide),
   C7_codec_rejections.2.2 "XOZXO.XO." (by decide) (by decide)⟩

/-- C8: a payload whose moves field lies outside `[0, 9]` fails the
pydantic validation of `GameStateIn`, so the `POST /api/games` endpoint
rejects it before the handler body runs and the store is unchanged; a
moves value inside `[0, 9]` satisfies the field's constraint. -/
theorem C8_moves_range_validation (p : TTT.GameStateIn) (now : String)
    (s : TTT.Store) :
    (¬ (0 ≤ p.moves ∧ p.moves ≤ 9) →
      TTT.movesFieldOk p.moves = false ∧
      p.pydanticValid = false ∧
      TTT.post_api_games p now s =
        (.error (.http 422 "request validation error"), s)) ∧
    ((0 ≤ p.moves ∧ p.moves ≤ 9) → TTT.movesFieldOk p.moves = true) := by
  constructor
  · intro h
    have h1 : TTT.movesFieldOk p.moves = false := by
      simp only [TTT.movesFieldOk, decide_eq_false_iff_not]
      exact h
    have h2 : p.pydanticValid = false := by
      simp [TTT.GameStateIn.pydanticValid, h1]
    exact ⟨h1, h2, by simp [TTT.post_api_games, h2]⟩
  · intro h
    simp only [TTT.movesFieldOk, decide_eq_true_eq]
    exact h

/-- Witness for C8: moves 10 is rejected before the store is touched,
moves 5 satisfies the field constraint. -/
theorem C8_moves_range_validation_witness :
    TTT.post_api_games ⟨List.replicate 9 none, "X", none, false, 10⟩ "t" ⟨[]⟩ =
      (.error (.http 422 "request validation error"), ⟨[]⟩) ∧
    TTT.movesFieldOk 5 = true :=
  ⟨((C8_moves_range_validation
      ⟨List.replicate 9 none, "X", none, false, 10⟩ "t" ⟨[]⟩).1
      (by decide)).2.2,
   (C8_moves_range_validation
      ⟨List.replicate 9 none, "X", none, false, 5⟩ "t" ⟨[]⟩).2 (by decide)⟩

/-- C9: `save_game_state` only ever inserts rows whose board column is a
9-character string over `{., X, O}`, so the well-formedness of the store
(every board column decodes) is preserved by every save call, and on a
well-formed nonempty store the decode step of `get_latest_game_state`
always succeeds: the CorruptData error branch is unreachable, whatever
the result of the subsequent response-model validation. -/
theorem C9_decodable_store_invariant (p : TTT.GameStateIn) (now : String)
    (s : TTT.Store) (hwf : s.wellFormed = true) :
    (∀ r ∈ (TTT.save_game_state p now s).2.rows, r ∈ s.rows ∨
      (r.board.length = 9 ∧ r.board.data.all TTT.boardCharOk = true)) ∧
    (TTT.save_game_state p now s).2.wellFormed = true ∧
    (s.rows ≠ [] →
      (∃ r, s.fetchLatest = some r ∧ ∃ b, TTT._decode_board r.board = .ok b) ∧
      ∀ e, TTT.get_latest_game_state s ≠
        .error (.http 500 ("Corrupt board data: " ++ e))) := by
  rw [TTT.Store.wellFormed] at hwf
  refine ⟨TTT.save_inserts_only_encoded p now s, ?_, ?_⟩
  · by_cases hlen : p.board.length = 9
    · obtain ⟨enc, nb, henc, hdec⟩ := TTT.encode_decodes p.board hlen
      simp [TTT.save_game_state, hlen, henc, hdec, TTT.Store.wellFormed,
        List.all_append, TTT.rowDecodes, hwf]
    · simp [TTT.save_game_state, hlen, TTT.Store.wellFormed, hwf]
  · intro hne
    rcases hlat : s.fetchLatest with _ | r
    · rw [TTT.Store.fetchLatest, TTT.latestRow_eq_none] at hlat
      exact absurd hlat hne
    · have hr : r ∈ s.rows := TTT.latestRow_mem s.rows r hlat
      have hd : TTT.rowDecodes r = true := List.all_eq_true.mp hwf r hr
      clear hwf
      rcases hdd : TTT._decode_board r.board with e | b
      · rw [TTT.rowDecodes, hdd] at hd
        exact absurd hd (by simp)
      · refine ⟨⟨r, rfl, b, hdd⟩, ?_⟩
        intro e
        cases hv : TTT.GameStateOut.pydanticValid
            { id := r.id, board := b, next_player := r.next_player,
              winner := r.winner, is_draw := r.is_draw != 0,
              moves := r.moves, created_at := r.created_at,
              updated_at := r.updated_at } <;>
          simp [TTT.get_latest_game_state, hlat, hdd, TTT.mkGameStateOut, hv]

/-- Witness for C9: a well-formed single-row store, saving an all-empty
board on it, and fetching from it. -/
theorem C9_decodable_store_invariant_witness :
    (∀ r ∈ (TTT.save_game_state ⟨List.replicate 9 none, "X", none, false, 0⟩
        "t1" ⟨[⟨1, "X...O....", "O", none, 0, 2, "t0", "t0"⟩]⟩).2.rows,
      r ∈ [⟨1, "X...O....", "O", none, 0, 2, "t0", "t0"⟩] ∨
      (r.board.length = 9 ∧ r.board.data.all TTT.boardCharOk = true)) ∧
    (TTT.save_game_state ⟨List.replicate 9 none, "X", none, false, 0⟩ "t1"
        ⟨[⟨1, "X...O....", "O", none, 0, 2, "t0", "t0"⟩]⟩).2.wellFormed = true ∧
    (∃ r, (⟨[⟨1, "X...O....", "O", none, 0, 2, "t0", "t0"⟩]⟩ :
        TTT.Store).fetchLatest = some r ∧
      ∃ b, TTT._decode_board r.board = .ok b) ∧
    ∀ e, TTT.get_latest_game_state
        ⟨[⟨1, "X...O....", "O", none, 0, 2, "t0", "t0"⟩]⟩ ≠
      .error (.http 500 ("Corrupt board data: " ++ e)) := by
  have h := C9_decodable_store_invariant
    ⟨List.replicate 9 none, "X", none, false, 0⟩ "t1"
    ⟨[⟨1, "X...O....", "O", none, 0, 2, "t0", "t0"⟩]⟩ (by decide)
  exact ⟨h.1, h.2.1, (h.2.2 (by decide)).1, (h.2.2 (by decide)).2⟩

/-- C10: for every 9-element list, `_encode_board` succeeds whatever the
cells contain; the produced characters map `X`/`O` cells to themselves
and every other value to `.`; and the length check is the only failure
condition of `_encode_board`. -/
theorem C10_encode_total_on_9 (b : List (Option String))
    (hlen : b.length = 9) :
    ∃ s : String,
      TTT._encode_board b = .ok s ∧
      s.data = b.map TTT.cellChar ∧
      (∀ v : Option String, v ≠ some "X" → v ≠ some "O" →
        TTT.cellChar v = '.') ∧
      (∀ b' : List (Option String),
        (∃ s', TTT._encode_board b' = .ok s') ↔ b'.length = 9) := by
  refine ⟨String.join (b.map TTT.cellToStr),
    by simp [TTT._encode_board, hlen], TTT.encoded_data b, ?_, ?_⟩
  · intro v h1 h2
    simp [TTT.cellChar, h1, h2]
  · intro b'
    constructor
    · rintro ⟨s', hs'⟩
      by_contra hne
      simp [TTT._encode_board, hne] at hs'
    · intro h9
      exact ⟨String.join (b'.map TTT.cellToStr), by simp [TTT._encode_board, h9]⟩

/-- Witness for C10: a 9-element list full of malformed cell values
(`Z`, the empty string, `XX`, lowercase `x`, a literal dot) encodes
without failing. -/
theorem C10_encode_total_on_9_witness :
    ∃ s : String,
      TTT._encode_board
          [some "Z", some "", none, some "XX", some "O", some "x",
           none, some "X", some "."] = .ok s ∧
      s.data = [some "Z", some "", none, some "XX", some "O", some "x",
           none, some "X", some "."].map TTT.cellChar ∧
      (∀ v : Option String, v ≠ some "X" → v ≠ some "O" →
        TTT.cellChar v = '.') ∧
      (∀ b' : List (Option String),
        (∃ s', TTT._encode_board b' = .ok s') ↔ b'.length = 9) :=
  C10_encode_total_on_9
    [some "Z", some "", none, some "XX", some "O", some "x",
     none, some "X", some "."] (by decide)
